import Mathlib

/-!
Verification of the Quad Cortex device-list extension.

The development shallowly embeds the two source components:

* the scraper (`scrape-devices` script): a DOM tree model, the
  heading/sibling traversal of `scrapeDeviceList`, and the control flow
  of `main`;
* the search view (`search-quad-cortex-device-list.tsx`): the exclusion
  of the announced-devices category, the query filter, the
  group-by-category/sort rendering, and the per-record presentation
  (subtitle and actions).
-/

namespace QuadCortex

/-! ## DOM model for the scraper

Element trees in first-child/next-sibling form, mirroring how the
traversal reads the page (`nextElementSibling` chains and
`querySelectorAll` descendant searches).  `nil` ends a sibling chain; an
element carries its tag name, its class list, its text content
(`textContent`, modelled as a field), its first-child chain, and its
next-sibling chain.  A document is the root sibling chain. -/

inductive Dom : Type where
  | nil : Dom
  | elem (tag : String) (classes : List String) (text : String)
      (children : Dom) (next : Dom) : Dom
deriving DecidableEq, Repr

def Dom.tag : Dom → String
  | .nil => ""
  | .elem t _ _ _ _ => t

def Dom.text : Dom → String
  | .nil => ""
  | .elem _ _ tx _ _ => tx

/-- All elements of a sibling chain together with their descendants, in
document (preorder) order; each is listed with its `next` field cleared,
so that a listed element stands for itself and its subtree only. -/
def descChain : Dom → List Dom
  | .nil => []
  | .elem t c tx ch nx => Dom.elem t c tx ch Dom.nil :: descChain ch ++ descChain nx

/-- All proper descendants of an element, in document order (the element
itself excluded, as for `element.querySelectorAll`). -/
def Dom.descendants : Dom → List Dom
  | .nil => []
  | .elem _ _ _ ch _ => descChain ch

/-- Whether an element matches the CSS selector `tag.cls₁.cls₂...`. -/
def Dom.matchesSel (d : Dom) (tag : String) (cls : List String) : Bool :=
  match d with
  | .nil => false
  | .elem t c _ _ _ => t == tag && cls.all (fun x => c.contains x)

/-- `n.querySelectorAll "tag.cls..."`: matching proper descendants in
document order. -/
def querySelectorAll (n : Dom) (tag : String) (cls : List String) : List Dom :=
  n.descendants.filter (fun m => m.matchesSel tag cls)

/-- The data rows beneath an element: `current.querySelectorAll "div.sc-97391185-0.vdqnr"`. -/
def rowsOf (n : Dom) : List Dom :=
  querySelectorAll n "div" ["sc-97391185-0", "vdqnr"]

/-- The data cells beneath a row: `row.querySelectorAll "div.sc-eb3d5477-0.ijbjQB"`. -/
def cellsOf (row : Dom) : List Dom :=
  querySelectorAll row "div" ["sc-eb3d5477-0", "ijbjQB"]

/-- JavaScript `s.trim()`: strip leading and trailing whitespace. -/
def jsTrim (s : String) : String :=
  ⟨((s.data.dropWhile Char.isWhitespace).reverse.dropWhile Char.isWhitespace).reverse⟩

/-- JavaScript `s.toLowerCase()`: lower-case each character. -/
def jsToLower (s : String) : String :=
  ⟨s.data.map Char.toLower⟩

namespace Scraper

/-- Device data structure extracted from the device list page
(`scrape-devices` script). -/
structure Device where
  category : String
  name : String
  basedOn : String
deriving DecidableEq, Repr

/-- The body of the inner `dataRows.forEach` of `scrapeDeviceList`: a row
with at least two cells and a non-empty trimmed first-cell text pushes one
record; any other row pushes nothing. -/
def extractRow (category : String) (row : Dom) : List Device :=
  match cellsOf row with
  | c0 :: c1 :: _ =>
    let name := jsTrim c0.text
    let basedOn := jsTrim c1.text
    if name ≠ "" then [⟨category, name, basedOn⟩] else []
  | _ => []

/-- The `while (current && !current.matches("h2"))` walk of
`scrapeDeviceList` over the following-sibling chain of a heading: stop at the
first sibling beneath which data rows are found and return those rows
(the `break`), or return nothing upon reaching an `h2` sibling or the end
of the chain. -/
def findRows : Dom → List Dom
  | .nil => []
  | .elem t c tx ch nx =>
    if t == "h2" then []
    else if (rowsOf (Dom.elem t c tx ch nx)).isEmpty then findRows nx
    else rowsOf (Dom.elem t c tx ch nx)

/-- The body of `headings.forEach`: a heading whose trimmed text is empty
contributes nothing; otherwise every row of the first data container among
the following siblings is extracted with the trimmed heading text as
category. -/
def processHeading (heading : Dom) (siblings : Dom) : List Device :=
  let category := jsTrim heading.text
  if category = "" then []
  else (findRows siblings).flatMap (extractRow category)

/-- `document.querySelectorAll "h2"` in document order, each heading
paired with its following-sibling chain (its `nextElementSibling`). -/
def collectH2 : Dom → List (Dom × Dom)
  | .nil => []
  | .elem t c tx ch nx =>
    (if t == "h2" then [(Dom.elem t c tx ch Dom.nil, nx)] else []) ++
      collectH2 ch ++ collectH2 nx

/-- The in-page evaluation of `scrapeDeviceList` over a document given as
the root sibling chain: the concatenation, in heading order, of the
contribution of each heading. -/
def scrapeDeviceList (doc : Dom) : List Device :=
  (collectH2 doc).flatMap (fun p => processHeading p.1 p.2)

/-- Observable outcome of one run of the scraper script: the contents of
the dataset file if it was written, and the process exit code. -/
structure RunOutcome where
  written : Option (List Device)
  exitCode : Nat
deriving DecidableEq, Repr

/-- Control flow of `main` in the script: the whole run is one
`try`/`catch`.  The extraction (`scrapeDeviceList` with its page load,
waits, and in-page evaluation) happens first and is fallible; only after
it returns does `fs.writeFileSync` write the full device list, and the run
ends with exit code 0.  Any error thrown inside the `try` reaches the
`catch` before the write, is logged, and the run ends with
`process.exit(1)`. -/
def main (scrapeResult : Except String (List Device)) : RunOutcome :=
  match scrapeResult with
  | .ok devices => { written := some devices, exitCode := 0 }
  | .error _ => { written := none, exitCode := 1 }

end Scraper

/-! ## Search view (`search-quad-cortex-device-list.tsx`) -/

namespace View

/-- Device record as the search view types it: `basedOn` is optional. -/
structure Device where
  category : String
  name : String
  basedOn : Option String
deriving DecidableEq, Repr

/-- The reserved category label filtered out by the view. -/
def sentinelCategory : String := "Announced devices that have not yet been released"

/-- `releasedDevices`: drop every record whose category equals the
announced-devices sentinel, before any text filtering. -/
def releasedDevices (devices : List Device) : List Device :=
  devices.filter (fun device => device.category != sentinelCategory)

/-- `pat` is a prefix of `s`, on character lists. -/
def startsWithChars : List Char → List Char → Bool
  | _, [] => true
  | [], _ :: _ => false
  | a :: as, b :: bs => a == b && startsWithChars as bs

/-- `pat` occurs contiguously in `s`, on character lists. -/
def occursInChars (pat : List Char) : List Char → Bool
  | [] => startsWithChars [] pat
  | c :: rest => startsWithChars (c :: rest) pat || occursInChars pat rest

/-- JavaScript `s.includes pat`: `pat` is a contiguous substring of `s`
(always true for the empty `pat`). -/
def jsIncludes (s pat : String) : Bool :=
  occursInChars pat.data s.data

/-- The predicate of the `filter` of the view over `releasedDevices`: an empty
query matches everything; otherwise the lowercased query must occur in the
lowercased `name`, or in the lowercased `category`, or in the lowercased
`basedOn` when `basedOn` is present, non-empty, and non-blank after
trimming. -/
def matchesQuery (searchText : String) (device : Device) : Bool :=
  if searchText = "" then true
  else
    let searchLower := jsToLower searchText
    jsIncludes (jsToLower device.name) searchLower ||
    jsIncludes (jsToLower device.category) searchLower ||
    (match device.basedOn with
     | some b => b != "" && jsTrim b != "" && jsIncludes (jsToLower b) searchLower
     | none => false)

/-- The `filtered` list of the view: released devices matching the query. -/
def filteredDevices (devices : List Device) (searchText : String) : List Device :=
  (releasedDevices devices).filter (matchesQuery searchText)

/-- JavaScript default array sort order on strings: lexicographic
comparison of the character sequences. -/
def charListLe : List Char → List Char → Bool
  | [], _ => true
  | _ :: _, [] => false
  | a :: as, b :: bs => if a < b then true else if a = b then charListLe as bs else false

/-- String comparison used by `Object.keys(grouped).sort()`. -/
def strLe (a b : String) : Bool :=
  charListLe a.data b.data

/-- `sortedCategories`: the distinct categories of the filtered list
(insertion order of the grouping object), sorted ascending. -/
def sortedCategories (filtered : List Device) : List String :=
  List.insertionSort (fun a b => strLe a b = true) (filtered.map (fun d => d.category)).dedup

/-- The rendered sections: for each category in sorted order, the filtered
records of that category in their filtered (hence original) order, exactly
as the grouping `reduce` collects them. -/
def groupedDevices (devices : List Device) (searchText : String) :
    List (String × List Device) :=
  let filtered := filteredDevices devices searchText
  (sortedCategories filtered).map
    (fun c => (c, filtered.filter (fun d => d.category == c)))

/-- The rendered subtitle of a record: `device.basedOn || ""`. -/
def subtitle (device : Device) : String :=
  match device.basedOn with
  | some b => if b = "" then "" else b
  | none => ""

/-- An entry of the action panel of a rendered record. -/
inductive RAction : Type where
  | copyToClipboard (content : String)
  | openInBrowser (url : String)
deriving DecidableEq, Repr

/-- Modelled from the spec: the shared source-URL constant lives in
`lib/constants.ts`, which is not part of the given sources; the README
names the device-list page it points to. -/
def DEVICE_LIST_URL : String := "https://neuraldsp.com/device-list"

/-- The action panel of one rendered record: a copy action carrying the
exact `basedOn` value when `basedOn` is present, non-empty, and non-blank
after trimming, then the open-in-browser action with the fixed URL. -/
def actions (device : Device) : List RAction :=
  (match device.basedOn with
   | some b => if b != "" && jsTrim b != "" then [RAction.copyToClipboard b] else []
   | none => []) ++ [RAction.openInBrowser DEVICE_LIST_URL]

end View

/-! ## Auxiliary notions used by the statements -/

/-- Concatenation of two sibling chains: the second chain continues the
first where it ended. -/
def appendChain : Dom → Dom → Dom
  | .nil, d => d
  | .elem t c tx ch nx, d => .elem t c tx ch (appendChain nx d)

/-- Every element of the chain is one the sibling walk passes over
without stopping: not an `h2`, and with no data rows beneath it. -/
def walkPasses : Dom → Prop
  | .nil => True
  | .elem t c tx ch nx =>
    t ≠ "h2" ∧ rowsOf (Dom.elem t c tx ch Dom.nil) = [] ∧ walkPasses nx

/-- The query, lowercased, occurs in the lowercased `s` (the
case-insensitive substring test of the specification). -/
def ciSubstringOf (q s : String) : Prop :=
  View.jsIncludes (jsToLower s) (jsToLower q) = true

/-- Matching condition of the specification for a non-empty query: a
case-insensitive substring of `name`, or of `category`, or of `basedOn`
when `basedOn` is present and non-blank after trimming. -/
def querySpecCond (q : String) (d : View.Device) : Prop :=
  ciSubstringOf q d.name ∨ ciSubstringOf q d.category ∨
    ∃ b, d.basedOn = some b ∧ jsTrim b ≠ "" ∧ ciSubstringOf q b

/-- Matching predicate as the specification words it: an empty query
matches every record, a non-empty one by `querySpecCond`. -/
def specMatches (q : String) (d : View.Device) : Prop :=
  q = "" ∨ querySpecCond q d

/-- The three-record example dataset of the specification. -/
def exampleDevices : List View.Device :=
  [⟨"Amps", "Brit 800", some "Marshall JCM800"⟩,
   ⟨"Amps", "Twin", some ""⟩,
   ⟨View.sentinelCategory, "Secret", some "X"⟩]

/-- Records spanning the two categories of the grouping example of the
specification. -/
def zaDevices : List View.Device :=
  [⟨"Z-cat", "z1", some "zz"⟩, ⟨"A-cat", "a1", none⟩, ⟨"Z-cat", "z2", some ""⟩]

/-- Concrete cell element used in witnesses. -/
def cellW (s : String) (nx : Dom) : Dom :=
  .elem "div" ["sc-eb3d5477-0", "ijbjQB"] s .nil nx

/-- Concrete data-row element used in witnesses. -/
def rowW (cs nx : Dom) : Dom :=
  .elem "div" ["sc-97391185-0", "vdqnr"] "" cs nx

/-- Concrete container element used in witnesses. -/
def contW (rs nx : Dom) : Dom :=
  .elem "div" ["sc-aabe08f-0", "flgqeV"] "" rs nx

/-- Concrete heading element used in witnesses. -/
def h2W (s : String) (nx : Dom) : Dom :=
  .elem "h2" [] s .nil nx

/-- Concrete data row used in witnesses: three cells, the first two
carrying padded name and based-on texts. -/
def rowW1 : Dom :=
  rowW (cellW " Brit 800 " (cellW " Marshall JCM800 " (cellW "1.0" Dom.nil))) Dom.nil

/-- Concrete sibling chain used in witnesses: one container holding the
witness row. -/
def sibsW : Dom := contW rowW1 Dom.nil

/-- The JavaScript string sort order is total. -/
instance : IsTotal String (fun a b => View.strLe a b = true) := by
  constructor
  intro a b
  have cons_eq : ∀ (x y : Char) (xs ys : List Char),
      View.charListLe (x :: xs) (y :: ys) =
        if x < y then true else if x = y then View.charListLe xs ys else false :=
    fun _ _ _ _ => rfl
  have aux : ∀ x y : List Char,
      View.charListLe x y = true ∨ View.charListLe y x = true := by
    intro x
    induction x with
    | nil =>
      intro y
      left
      rfl
    | cons a as ih =>
      intro y
      cases y with
      | nil =>
        right
        rfl
      | cons b bs =>
        rcases lt_trichotomy a b with h | h | h
        · left
          rw [cons_eq, if_pos h]
        · subst h
          rcases ih bs with h2 | h2
          · left
            rw [cons_eq, if_neg (lt_irrefl a), if_pos rfl]
            exact h2
          · right
            rw [cons_eq, if_neg (lt_irrefl a), if_pos rfl]
            exact h2
        · right
          rw [cons_eq, if_pos h]
  exact aux a.data b.data

/-- The JavaScript string sort order is transitive. -/
instance : IsTrans String (fun a b => View.strLe a b = true) := by
  constructor
  intro a b c
  have cons_eq : ∀ (x y : Char) (xs ys : List Char),
      View.charListLe (x :: xs) (y :: ys) =
        if x < y then true else if x = y then View.charListLe xs ys else false :=
    fun _ _ _ _ => rfl
  have aux : ∀ x y z : List Char, View.charListLe x y = true →
      View.charListLe y z = true → View.charListLe x z = true := by
    intro x
    induction x with
    | nil =>
      intro y z _ _
      rfl
    | cons a as ih =>
      intro y z h1 h2
      cases y with
      | nil => exact absurd h1 (by simp [View.charListLe])
      | cons b bs =>
        cases z with
        | nil => exact absurd h2 (by simp [View.charListLe])
        | cons d ds =>
          rw [cons_eq] at h1 h2 ⊢
          by_cases hab : a < b
          · by_cases hbd : b < d
            · rw [if_pos (hab.trans hbd)]
            · by_cases hbde : b = d
              · subst hbde
                rw [if_pos hab]
              · rw [if_neg hbd, if_neg hbde] at h2
                exact absurd h2 (by decide)
          · by_cases habe : a = b
            · subst habe
              rw [if_neg (lt_irrefl a), if_pos rfl] at h1
              by_cases had : a < d
              · rw [if_pos had]
              · by_cases hade : a = d
                · subst hade
                  rw [if_neg (lt_irrefl a), if_pos rfl] at h2 ⊢
                  exact ih bs ds h1 h2
                · rw [if_neg had, if_neg hade] at h2
                  exact absurd h2 (by decide)
            · rw [if_neg hab, if_neg habe] at h1
              exact absurd h1 (by decide)
  exact aux a.data b.data c.data

/-! ## Helper lemmas -/

theorem jsTrim_empty : jsTrim "" = "" := rfl

theorem ne_empty_of_jsTrim_ne {b : String} (h : jsTrim b ≠ "") : b ≠ "" := by
  intro hb
  subst hb
  exact h jsTrim_empty

theorem matchesQuery_iff (q : String) (d : View.Device) :
    View.matchesQuery q d = true ↔ specMatches q d := by
  obtain ⟨c, n, bo⟩ := d
  by_cases hq : q = ""
  · subst hq
    simp [View.matchesQuery, specMatches]
  · cases bo with
    | none =>
      simp [View.matchesQuery, if_neg hq, specMatches, querySpecCond, ciSubstringOf, hq]
    | some b =>
      unfold View.matchesQuery
      rw [if_neg hq]
      simp only [specMatches, querySpecCond, ciSubstringOf, hq, false_or,
        Bool.or_eq_true, Bool.and_eq_true, bne_iff_ne, ne_eq, Option.some.injEq,
        exists_eq_left']
      constructor
      · rintro ((h | h) | ⟨⟨_, h2⟩, h3⟩)
        · exact Or.inl h
        · exact Or.inr (Or.inl h)
        · exact Or.inr (Or.inr ⟨h2, h3⟩)
      · rintro (h | h | ⟨h2, h3⟩)
        · exact Or.inl (Or.inl h)
        · exact Or.inl (Or.inr h)
        · exact Or.inr ⟨⟨ne_empty_of_jsTrim_ne h2, h2⟩, h3⟩

theorem mem_filtered_ne_sentinel {devices : List View.Device} {q : String}
    {d : View.Device} (hd : d ∈ View.filteredDevices devices q) :
    d.category ≠ View.sentinelCategory := by
  have h1 : d ∈ View.releasedDevices devices := List.mem_of_mem_filter hd
  have h2 := List.of_mem_filter h1
  simpa [bne_iff_ne] using h2

theorem mem_grouped_section {devices : List View.Device} {q c : String}
    {sec : List View.Device} (hsec : (c, sec) ∈ View.groupedDevices devices q) :
    sec = (View.filteredDevices devices q).filter (fun d => d.category == c) := by
  obtain ⟨cc, _, heq⟩ := List.mem_map.mp hsec
  cases heq
  rfl

/-! ## Claims -/

/-- C3: a record matches the empty query always, and a non-empty query
exactly when the query occurs case-insensitively in the name, or in the
category, or in `basedOn` when the latter is non-blank after trimming; on
the example dataset the query "marshall" matches exactly the record based
on "Marshall JCM800", and the query "secret" matches nothing. -/
theorem claim_matching_rule :
    (∀ q d, View.matchesQuery q d = true ↔ specMatches q d) ∧
    View.filteredDevices exampleDevices "marshall" =
      [⟨"Amps", "Brit 800", some "Marshall JCM800"⟩] ∧
    View.filteredDevices exampleDevices "secret" = [] :=
  ⟨matchesQuery_iff, by decide, by decide⟩

theorem claim_matching_rule_witness :
    View.matchesQuery "marshall"
        (⟨"Amps", "Brit 800", some "Marshall JCM800"⟩ : View.Device) = true ↔
      specMatches "marshall" ⟨"Amps", "Brit 800", some "Marshall JCM800"⟩ :=
  claim_matching_rule.1 "marshall" ⟨"Amps", "Brit 800", some "Marshall JCM800"⟩

/-- C4: no record of the sentinel announced-devices category survives into
the filtered list or any rendered section, for any query. -/
theorem claim_announced_excluded (devices : List View.Device) (q : String) :
    (∀ d, d ∈ View.filteredDevices devices q → d.category ≠ View.sentinelCategory) ∧
    (∀ c sec, (c, sec) ∈ View.groupedDevices devices q →
      ∀ d, d ∈ sec → d.category ≠ View.sentinelCategory) := by
  refine ⟨fun d hd => mem_filtered_ne_sentinel hd, ?_⟩
  intro c sec hsec d hd
  rw [mem_grouped_section hsec] at hd
  exact mem_filtered_ne_sentinel (List.mem_of_mem_filter hd)

theorem claim_announced_excluded_witness :
    (⟨"Amps", "Brit 800", some "Marshall JCM800"⟩ : View.Device).category ≠
      View.sentinelCategory :=
  (claim_announced_excluded exampleDevices "").1
    ⟨"Amps", "Brit 800", some "Marshall JCM800"⟩ (by decide)

/-- C5: the rendered output partitions the matches by category: the
section labels are sorted ascending lexicographically, each section lists
exactly the matching records of its label in their original dataset order
(a sublist of the input), every match lands in the section of its own
category, and the concrete Z-cat / A-cat example renders A-cat first. -/
theorem claim_grouping_sorting :
    (∀ devices q,
      List.Sorted (fun a b => View.strLe a b = true)
        ((View.groupedDevices devices q).map Prod.fst)) ∧
    (∀ devices q c sec, (c, sec) ∈ View.groupedDevices devices q →
      sec = (View.filteredDevices devices q).filter (fun d => d.category == c) ∧
      sec.Sublist (View.filteredDevices devices q) ∧ sec.Sublist devices) ∧
    (∀ devices q d, d ∈ View.filteredDevices devices q →
      (d.category,
        (View.filteredDevices devices q).filter
          (fun x => x.category == d.category)) ∈ View.groupedDevices devices q) ∧
    View.groupedDevices zaDevices "" =
      [("A-cat", [⟨"A-cat", "a1", none⟩]),
       ("Z-cat", [⟨"Z-cat", "z1", some "zz"⟩, ⟨"Z-cat", "z2", some ""⟩])] := by
  refine ⟨?_, ?_, ?_, by decide⟩
  · intro devices q
    have hs := List.sorted_insertionSort (fun a b => View.strLe a b = true)
      ((View.filteredDevices devices q).map (fun d => d.category)).dedup
    simpa [View.groupedDevices, View.sortedCategories, List.map_map,
      Function.comp_def] using hs
  · intro devices q c sec hsec
    have heq := mem_grouped_section hsec
    have hfil : (View.filteredDevices devices q).Sublist devices :=
      (List.filter_sublist _).trans (List.filter_sublist _)
    refine ⟨heq, ?_, ?_⟩
    · rw [heq]
      exact List.filter_sublist _
    · rw [heq]
      exact (List.filter_sublist _).trans hfil
  · intro devices q d hd
    have hc : d.category ∈ View.sortedCategories (View.filteredDevices devices q) := by
      unfold View.sortedCategories
      rw [(List.perm_insertionSort _ _).mem_iff]
      exact List.mem_dedup.mpr (List.mem_map_of_mem _ hd)
    have hmem := List.mem_map_of_mem
      (fun c => (c, (View.filteredDevices devices q).filter (fun x => x.category == c))) hc
    simpa [View.groupedDevices] using hmem

theorem claim_grouping_sorting_witness :
    ([(⟨"A-cat", "a1", none⟩ : View.Device)] =
      (View.filteredDevices zaDevices "").filter (fun d => d.category == "A-cat")) ∧
    List.Sublist [(⟨"A-cat", "a1", none⟩ : View.Device)]
      (View.filteredDevices zaDevices "") ∧
    List.Sublist [(⟨"A-cat", "a1", none⟩ : View.Device)] zaDevices :=
  claim_grouping_sorting.2.1 zaDevices "" "A-cat" [⟨"A-cat", "a1", none⟩] (by decide)

/-- C6: an error during extraction reaches the top-level catch before the
dataset write, so the run writes nothing and exits non-zero; the file is
written (in full) exactly when extraction succeeded, with exit code 0. -/
theorem claim_no_partial_write (r : Except String (List Scraper.Device)) :
    (∀ e, r = Except.error e →
      (Scraper.main r).written = none ∧ (Scraper.main r).exitCode ≠ 0) ∧
    ((Scraper.main r).written ≠ none →
      ∃ ds, r = Except.ok ds ∧ (Scraper.main r).written = some ds ∧
        (Scraper.main r).exitCode = 0) := by
  cases r with
  | ok ds =>
    refine ⟨?_, ?_⟩
    · intro e he
      exact Except.noConfusion he
    · intro _
      exact ⟨ds, rfl, rfl, rfl⟩
  | error e =>
    refine ⟨?_, ?_⟩
    · intro e2 _
      exact ⟨rfl, Nat.one_ne_zero⟩
    · intro h
      exact absurd rfl h

theorem claim_no_partial_write_witness :
    (Scraper.main (Except.error "navigation timeout")).written = none ∧
    (Scraper.main (Except.error "navigation timeout")).exitCode ≠ 0 :=
  (claim_no_partial_write (Except.error "navigation timeout")).1
    "navigation timeout" rfl

/-- C7 (counterexample): a record whose `basedOn` is the blank string
" " (non-empty but whitespace-only) is rendered with subtitle " ", not
the empty subtitle the claim requires for blank values. -/
theorem claim_subtitle_counterexample :
    View.subtitle ⟨"Amps", "Twin", some " "⟩ = " " ∧
    jsTrim " " = "" ∧ (" " : String) ≠ "" :=
  ⟨by decide, by decide, by decide⟩

/-- C7 (amended): the subtitle is the `basedOn` value whenever that value
is present and non-empty — blank-but-non-empty values included — and the
empty string exactly when `basedOn` is absent or the empty string. -/
theorem claim_subtitle (d : View.Device) :
    (d.basedOn = none → View.subtitle d = "") ∧
    (d.basedOn = some "" → View.subtitle d = "") ∧
    (∀ b, d.basedOn = some b → b ≠ "" → View.subtitle d = b) := by
  obtain ⟨c, n, bo⟩ := d
  refine ⟨?_, ?_, ?_⟩
  · intro h
    cases h
    rfl
  · intro h
    cases h
    simp [View.subtitle]
  · intro b h hb
    cases h
    simp [View.subtitle, hb]

theorem claim_subtitle_witness :
    View.subtitle (⟨"Amps", "Plexi", some "Marshall"⟩ : View.Device) = "Marshall" :=
  (claim_subtitle ⟨"Amps", "Plexi", some "Marshall"⟩).2.2 "Marshall" rfl (by decide)

/-- C8: the copy action, carrying the exact `basedOn` value, is offered
iff `basedOn` is present and non-blank after trimming; the open-reference
action with the fixed URL is offered for every record. -/
theorem claim_actions (d : View.Device) :
    ((∃ s, View.RAction.copyToClipboard s ∈ View.actions d) ↔
      ∃ b, d.basedOn = some b ∧ jsTrim b ≠ "") ∧
    (∀ s, View.RAction.copyToClipboard s ∈ View.actions d → d.basedOn = some s) ∧
    View.RAction.openInBrowser View.DEVICE_LIST_URL ∈ View.actions d ∧
    (∀ u, View.RAction.openInBrowser u ∈ View.actions d →
      u = View.DEVICE_LIST_URL) := by
  obtain ⟨c, n, bo⟩ := d
  cases bo with
  | none => simp [View.actions]
  | some b =>
    by_cases hb : jsTrim b = ""
    · simp [View.actions, hb]
    · have hb2 : ¬ b = "" := ne_empty_of_jsTrim_ne hb
      simp [View.actions, hb, hb2]

theorem claim_actions_witness :
    (⟨"Amps", "Plexi", some "Marshall"⟩ : View.Device).basedOn = some "Marshall" :=
  (claim_actions ⟨"Amps", "Plexi", some "Marshall"⟩).2.1 "Marshall" (by decide)

/-- C9: the all-whitespace query " " is not treated as the empty query:
it matches a record exactly when the literal space occurs
(case-insensitively) in the name, the category, or a non-blank `basedOn`;
it matches the record named "Brit 800" (space inside the name) and fails
on the record named "Twin". -/
theorem claim_whitespace_query :
    (∀ d, View.matchesQuery " " d = true ↔ querySpecCond " " d) ∧
    View.matchesQuery " " ⟨"Amps", "Brit 800", some ""⟩ = true ∧
    View.matchesQuery " " ⟨"Amps", "Twin", some ""⟩ = false := by
  refine ⟨?_, by decide, by decide⟩
  intro d
  exact (matchesQuery_iff " " d).trans (or_iff_right (by decide))

theorem claim_whitespace_query_witness :
    View.matchesQuery " " (⟨"Amps", "Brit 800", some ""⟩ : View.Device) = true ↔
      querySpecCond " " ⟨"Amps", "Brit 800", some ""⟩ :=
  claim_whitespace_query.1 ⟨"Amps", "Brit 800", some ""⟩

/-- C10: every view operation is total on a record with absent `basedOn`,
which behaves exactly like an empty one: identical query matching, empty
subtitle, only the open action, and it still matches queries occurring in
its name. -/
theorem claim_absent_basedOn (d : View.Device) (h : d.basedOn = none) :
    (∀ q, View.matchesQuery q d = View.matchesQuery q ⟨d.category, d.name, some ""⟩) ∧
    View.subtitle d = "" ∧
    View.actions d = [View.RAction.openInBrowser View.DEVICE_LIST_URL] ∧
    (∀ q, q ≠ "" → View.jsIncludes (jsToLower d.name) (jsToLower q) = true →
      View.matchesQuery q d = true) := by
  obtain ⟨c, n, bo⟩ := d
  cases h
  refine ⟨?_, rfl, rfl, ?_⟩
  · intro q
    by_cases hq : q = ""
    · subst hq
      rfl
    · unfold View.matchesQuery
      rw [if_neg hq, if_neg hq]
      simp
  · intro q hq hname
    unfold View.matchesQuery
    rw [if_neg hq]
    simp [hname]

theorem claim_absent_basedOn_witness :
    View.subtitle (⟨"Amps", "AC30", none⟩ : View.Device) = "" :=
  (claim_absent_basedOn ⟨"Amps", "AC30", none⟩ rfl).2.1

theorem rowsOf_next (t : String) (c : List String) (tx : String) (ch nx : Dom) :
    rowsOf (Dom.elem t c tx ch nx) = rowsOf (Dom.elem t c tx ch Dom.nil) := rfl

theorem processHeading_of_findRows_nil {sibs : Dom}
    (h : Scraper.findRows sibs = []) (heading : Dom) :
    Scraper.processHeading heading sibs = [] := by
  simp [Scraper.processHeading, h]

theorem findRows_elem (t : String) (c : List String) (tx : String) (ch nx : Dom) :
    Scraper.findRows (Dom.elem t c tx ch nx) =
      if t == "h2" then []
      else if (rowsOf (Dom.elem t c tx ch nx)).isEmpty then Scraper.findRows nx
      else rowsOf (Dom.elem t c tx ch nx) := rfl

theorem findRows_append (pre : Dom) (hpre : walkPasses pre) (d : Dom) :
    Scraper.findRows (appendChain pre d) = Scraper.findRows d := by
  induction pre with
  | nil => rfl
  | elem t0 c0 tx0 ch0 nx0 _ ihn =>
    obtain ⟨ht, hrows, hrest⟩ := hpre
    have ht' : (t0 == "h2") = false := beq_eq_false_iff_ne.mpr ht
    have hemp : (rowsOf (Dom.elem t0 c0 tx0 ch0 (appendChain nx0 d))).isEmpty = true := by
      rw [rowsOf_next, hrows]
      rfl
    show Scraper.findRows (Dom.elem t0 c0 tx0 ch0 (appendChain nx0 d)) = Scraper.findRows d
    rw [findRows_elem, ht', hemp]
    simpa using ihn hrest

theorem findRows_stop (t : String) (c : List String) (tx : String) (ch nx : Dom)
    (ht : t ≠ "h2") (hrows : rowsOf (Dom.elem t c tx ch Dom.nil) ≠ []) :
    Scraper.findRows (Dom.elem t c tx ch nx) = rowsOf (Dom.elem t c tx ch Dom.nil) := by
  have ht' : (t == "h2") = false := beq_eq_false_iff_ne.mpr ht
  have hemp : (rowsOf (Dom.elem t c tx ch nx)).isEmpty = false := by
    rw [rowsOf_next]
    exact (List.isEmpty_eq_false).mpr hrows
  rw [findRows_elem, ht', hemp]
  simp [rowsOf_next]

/-- C1 (counterexample): a heading whose text " Guitar amps " carries
surrounding whitespace yields records whose category is the trimmed text
"Guitar amps", not the raw heading text the claim prescribes. -/
theorem claim_row_extraction_counterexample :
    Dom.text (h2W " Guitar amps " Dom.nil) = " Guitar amps " ∧
    Scraper.processHeading (h2W " Guitar amps " Dom.nil) sibsW =
      [⟨"Guitar amps", "Brit 800", "Marshall JCM800"⟩] ∧
    ("Guitar amps" : String) ≠ " Guitar amps " :=
  ⟨rfl, by decide, by decide⟩

/-- C1 (amended): for a heading whose trimmed text is non-empty, the
contribution is exactly the rows of the container the walk finds, one
record per well-formed row: a row with at least two cells and a
non-empty trimmed first-cell text yields the single record whose
category is the trimmed heading text, whose name is the trimmed
first-cell text, and whose basedOn is the trimmed second-cell text; a
row with a blank first cell, or with fewer than two cells, yields no
record. -/
theorem claim_row_extraction (heading siblings : Dom)
    (hcat : jsTrim heading.text ≠ "") :
    Scraper.processHeading heading siblings =
      (Scraper.findRows siblings).flatMap
        (Scraper.extractRow (jsTrim heading.text)) ∧
    (∀ row c0 c1 rest, cellsOf row = c0 :: c1 :: rest → jsTrim c0.text ≠ "" →
      Scraper.extractRow (jsTrim heading.text) row =
        [⟨jsTrim heading.text, jsTrim c0.text, jsTrim c1.text⟩]) ∧
    (∀ row c0 c1 rest, cellsOf row = c0 :: c1 :: rest → jsTrim c0.text = "" →
      Scraper.extractRow (jsTrim heading.text) row = []) ∧
    (∀ row, (cellsOf row).length < 2 →
      Scraper.extractRow (jsTrim heading.text) row = []) := by
  refine ⟨?_, ?_, ?_, ?_⟩
  · simp only [Scraper.processHeading]
    rw [if_neg hcat]
  · intro row c0 c1 rest hc h0
    unfold Scraper.extractRow
    rw [hc]
    simp [h0]
  · intro row c0 c1 rest hc h0
    unfold Scraper.extractRow
    rw [hc]
    simp [h0]
  · intro row hlen
    unfold Scraper.extractRow
    cases hc : cellsOf row with
    | nil => rfl
    | cons c0 tl =>
      cases tl with
      | nil => rfl
      | cons c1 rest =>
        rw [hc] at hlen
        simp only [List.length_cons] at hlen
        exact absurd hlen (by omega)

theorem claim_row_extraction_witness :
    Scraper.extractRow "Guitar amps" rowW1 =
      [⟨"Guitar amps", "Brit 800", "Marshall JCM800"⟩] :=
  (claim_row_extraction (h2W "Guitar amps" Dom.nil) sibsW (by decide)).2.1 rowW1
    (cellW " Brit 800 " Dom.nil) (cellW " Marshall JCM800 " Dom.nil)
    [cellW "1.0" Dom.nil] (by decide) (by decide)

/-- C2: the walk over the following siblings of a heading stops at the
first sibling beneath which matching rows exist and extracts exactly
those rows, whatever follows it; reaching an `h2` sibling first (in
particular a heading immediately followed by another heading), or the end
of the chain, yields no rows and hence zero records. -/
theorem claim_sibling_walk (pre : Dom) (hpre : walkPasses pre) :
    (∀ t c tx ch nx, t ≠ "h2" → rowsOf (Dom.elem t c tx ch Dom.nil) ≠ [] →
      Scraper.findRows (appendChain pre (Dom.elem t c tx ch nx)) =
        rowsOf (Dom.elem t c tx ch Dom.nil)) ∧
    (∀ c tx ch nx,
      Scraper.findRows (appendChain pre (Dom.elem "h2" c tx ch nx)) = []) ∧
    (∀ c tx ch nx heading,
      Scraper.processHeading heading (appendChain pre (Dom.elem "h2" c tx ch nx)) = []) ∧
    Scraper.findRows (appendChain pre Dom.nil) = [] := by
  refine ⟨?_, ?_, ?_, ?_⟩
  · intro t c tx ch nx ht hrows
    rw [findRows_append pre hpre]
    exact findRows_stop t c tx ch nx ht hrows
  · intro c tx ch nx
    rw [findRows_append pre hpre]
    rfl
  · intro c tx ch nx heading
    refine processHeading_of_findRows_nil ?_ heading
    rw [findRows_append pre hpre]
    rfl
  · rw [findRows_append pre hpre]
    rfl

theorem claim_sibling_walk_witness :
    Scraper.findRows (appendChain (contW Dom.nil Dom.nil) sibsW) = rowsOf sibsW :=
  (claim_sibling_walk (contW Dom.nil Dom.nil) ⟨by decide, by decide, trivial⟩).1
    "div" ["sc-aabe08f-0", "flgqeV"] "" rowW1 Dom.nil (by decide) (by decide)

end QuadCortex
